import Mathlib

/-!
Verification of the wasmer module-translation orchestrator
(`lib/compiler/src/translator/module.rs`, function `translate_module`).

The byte-stream decoder (wasmparser's `Parser::new(0).parse_all(data)`) is an
external collaborator: `translate_module` consumes its output, an in-order
sequence of items each of which is either a decoded section payload or a
decode error carrying a byte offset.  The embedding therefore takes that item
sequence as its input.  The section translators (`parse_type_section`, ...),
the translation state and the environment capability interface live outside
the excerpt and are modelled from the spec where their doc comments say so.
The `unimplemented` and `unreachable` branches of the dispatch loop abort the
process rather than returning an error value; they are embedded as a third,
`defect`, outcome distinct from returned errors.
-/

inductive WasmType
  | i32 | i64 | f32 | f64 | v128 | funcref | externref
  deriving DecidableEq

structure Signature where
  params : List WasmType
  results : List WasmType
  deriving DecidableEq

/-- Modelled from the spec: `ModuleTranslationState` (translator/state.rs is
not in the excerpt).  Per §3 and §4.3 it is an accumulator, created empty,
recording the signature table discovered from the type section in encounter
order, append-only during translation. -/
structure ModuleTranslationState where
  wasm_types : List Signature
  deriving DecidableEq

def ModuleTranslationState.new : ModuleTranslationState := ⟨[]⟩

structure BinaryReaderError where
  message : String
  offset : Nat
  deriving DecidableEq

/-- Error kinds returned by translation, per §7: decode errors always carry
the byte offset at which they occurred; structural errors identify the
violated invariant. -/
inductive WasmError
  | decode (message : String) (offset : Nat)
  | structural (message : String)
  deriving DecidableEq

/-- Mirrors `from_binaryreadererror_wasmerror` (translator/error.rs): a
decoder error is mapped to the decode-error kind, keeping its message and its
byte offset. -/
def from_binaryreadererror_wasmerror (e : BinaryReaderError) : WasmError :=
  .decode e.message e.offset

/-- Modelled from the spec: wasmparser's `BinaryReader` over one code-section
entry, an external primitive (§2, §6): a position-aware reader holding the
bytes remaining in the entry and the entry's position in the original
buffer. -/
structure BinaryReader where
  bytes : List Nat
  pos : Nat
  deriving DecidableEq

def BinaryReader.bytes_remaining (r : BinaryReader) : Nat := r.bytes.length

def BinaryReader.original_position (r : BinaryReader) : Nat := r.pos

/-- Modelled from the spec: reading `n` bytes succeeds with exactly the first
`n` remaining bytes and advances the position; asking for more bytes than
remain is a decode error at the current offset. -/
def BinaryReader.read_bytes (r : BinaryReader) (n : Nat) :
    Except BinaryReaderError (List Nat × BinaryReader) :=
  if n ≤ r.bytes.length then
    .ok (r.bytes.take n, ⟨r.bytes.drop n, r.pos + n⟩)
  else
    .error ⟨"unexpected end of section or function", r.pos⟩

/-- Modelled from the spec: wasmparser's `FunctionBody`, the lazy reader over
one code-section entry. -/
structure FunctionBody where
  reader : BinaryReader
  deriving DecidableEq

def FunctionBody.get_binary_reader (f : FunctionBody) : BinaryReader := f.reader

structure Limits where
  minimum : Nat
  maximum : Option Nat
  deriving DecidableEq

structure TableType where
  element : WasmType
  limits : Limits
  deriving DecidableEq

structure MemoryType where
  limits : Limits
  shared : Bool
  deriving DecidableEq

structure GlobalType where
  content : WasmType
  mutability : Bool
  deriving DecidableEq

structure GlobalDecl where
  ty : GlobalType
  init : List Nat
  deriving DecidableEq

inductive ImportDesc
  | func (sigIndex : Nat)
  | table (ty : TableType)
  | memory (ty : MemoryType)
  | global (ty : GlobalType)
  deriving DecidableEq

structure ImportEntry where
  module_ : String
  field : String
  desc : ImportDesc
  deriving DecidableEq

inductive ExternalKind
  | func | table | memory | global
  deriving DecidableEq

structure ExportDecl where
  name : String
  kind : ExternalKind
  index : Nat
  deriving DecidableEq

inductive SegmentMode
  | active (targetIndex : Nat) (offsetExpr : List Nat)
  | passive
  deriving DecidableEq

structure ElemSegment where
  mode : SegmentMode
  items : List Nat
  deriving DecidableEq

structure DataSegment where
  mode : SegmentMode
  bytes : List Nat
  deriving DecidableEq

/-- Structured records produced by the external name-section reader: either a
decoded function-name or module-name sub-entry, a sub-entry it could not
decode (`malformed`), or a sub-entry of a kind it does not know. -/
inductive NameRecord
  | functionName (funcIndex : Nat) (name : String)
  | moduleName (name : String)
  | malformed
  | unknown
  deriving DecidableEq

/-- Mirrors the wasmparser `Payload` variants matched by `translate_module`
(module.rs lines 27-110), with each section reader replaced by its decoded
contents, since the low-level byte decoding is the external collaborator's
job (§2, §6). -/
inductive Payload
  | Version
  | End
  | TypeSection (types : List Signature)
  | ImportSection (imports : List ImportEntry)
  | FunctionSection (functions : List Nat)
  | TableSection (tables : List TableType)
  | MemorySection (memories : List MemoryType)
  | GlobalSection (globals : List GlobalDecl)
  | ExportSection (exports : List ExportDecl)
  | StartSection (func : Nat)
  | ElementSection (elements : List ElemSegment)
  | CodeSectionStart
  | CodeSectionEntry (code : FunctionBody)
  | DataSection (segments : List DataSegment)
  | DataCountSection (count : Nat)
  | InstanceSection
  | AliasSection
  | ModuleSectionStart
  | ModuleSectionEntry
  | TagSection
  | CustomSection (name : String) (data : List Nat) (data_offset : Nat)
  | UnknownSection (id : Nat)
  deriving DecidableEq

/-- Modelled from the spec: the operations of the Environment capability
interface (§2, §4.2): declarations for each index space, the deferred
function-body descriptor (state snapshot, byte range, starting offset),
passive-data reservation, structured name records, and verbatim custom
sections. -/
inductive EnvOp
  | declareSignature (sig : Signature)
  | declareImport (module_ field : String) (desc : ImportDesc)
  | declareFuncType (sigIndex : Nat)
  | declareTable (ty : TableType)
  | declareMemory (ty : MemoryType)
  | declareGlobal (g : GlobalDecl)
  | declareExport (e : ExportDecl)
  | declareStartFunction (funcIndex : Nat)
  | declareElements (seg : ElemSegment)
  | defineFunctionBody (state : ModuleTranslationState) (body : List Nat) (offset : Nat)
  | declareData (seg : DataSegment)
  | reservePassiveData (count : Nat)
  | declareFunctionName (funcIndex : Nat) (name : String)
  | declareModuleName (name : String)
  | customSection (name : String) (data : List Nat)
  deriving DecidableEq

/-- Modelled from the spec: `ModuleEnvironment` (translator/environ.rs is not
in the excerpt), the backend-facing capability sink (§2, §4.2).  It records
the ordered sequence of operations invoked on it, plus the count of declared
signatures, which the Function-section bounds check of §4.2 consults. -/
structure ModuleEnvironment where
  log : List EnvOp
  signatures : Nat
  deriving DecidableEq

def ModuleEnvironment.new : ModuleEnvironment := ⟨[], 0⟩

def ModuleEnvironment.push (env : ModuleEnvironment) (op : EnvOp) : ModuleEnvironment :=
  { env with log := env.log ++ [op] }

/-- Result of a section translator or an environment operation: like Rust's
`WasmResult<()>` over a `&mut` environment, the environment mutated so far is
retained on the error path as well. -/
inductive EnvResult
  | ok (env : ModuleEnvironment)
  | err (e : WasmError) (env : ModuleEnvironment)
  deriving DecidableEq

def EnvResult.env : EnvResult → ModuleEnvironment
  | .ok env => env
  | .err _ env => env

/-- Modelled from the spec (§2, §4.1): the "define function body" operation
stores the body descriptor (state snapshot, byte range, starting offset)
without decoding it; it is an inexpensive store and does not fail. -/
def ModuleEnvironment.define_function_body (env : ModuleEnvironment)
    (state : ModuleTranslationState) (body : List Nat) (offset : Nat) : EnvResult :=
  .ok (env.push (.defineFunctionBody state body offset))

/-- Modelled from the spec (§4.2 DataCount): the "reserve capacity" operation
records the expected-count hint so storage can be pre-sized. -/
def ModuleEnvironment.reserve_passive_data (env : ModuleEnvironment) (count : Nat) : EnvResult :=
  .ok (env.push (.reservePassiveData count))

/-- Modelled from the spec (§4.2 Custom(other)): a non-"name" custom section
is stored verbatim as its name plus its raw bytes, with no interpretation. -/
def ModuleEnvironment.custom_section (env : ModuleEnvironment) (name : String)
    (data : List Nat) : EnvResult :=
  .ok (env.push (.customSection name data))

def ModuleEnvironment.declare_signature (env : ModuleEnvironment) (sig : Signature) :
    ModuleEnvironment :=
  { env with log := env.log ++ [.declareSignature sig], signatures := env.signatures + 1 }

/-- Modelled from the spec: the external name-section reader tokenizes the
raw bytes of a custom section named "name" into name records, a record whose
decoding fails being surfaced as `malformed`.  The concrete three-bytes-per-
record grouping is a stand-in tokenization, the collaborator's real wire
format being out of scope (§2, §6); trailing bytes that do not form a whole
record are dropped. -/
def decodeNameRecords : List Nat → List NameRecord
  | 0 :: _ :: _ :: rest => .malformed :: decodeNameRecords rest
  | 1 :: i :: n :: rest => .functionName i (toString n) :: decodeNameRecords rest
  | 2 :: n :: _ :: rest => .moduleName (toString n) :: decodeNameRecords rest
  | _ :: _ :: _ :: rest => .unknown :: decodeNameRecords rest
  | _ => []

/-- Modelled from the spec: constructing the name-section reader over the
section's bytes and buffer offset.  In the consumed wasmparser version the
constructor returns `Ok` unconditionally, so the orchestrator's error mapping
on construction has no error to map. -/
def NameSectionReader.new (data : List Nat) (_data_offset : Nat) : List NameRecord :=
  decodeNameRecords data

/-- Modelled from the spec (§4.2 Custom(name), §7 non-fatal degradation):
`parse_name_section` (translator/sections.rs is not in the excerpt) walks the
name records in order, forwarding each valid record to the Environment in
structured form and skipping each malformed or unknown record individually;
it never fails. -/
def parse_name_section : List NameRecord → ModuleEnvironment → EnvResult
  | [], env => .ok env
  | .functionName i n :: rest, env =>
      parse_name_section rest (env.push (.declareFunctionName i n))
  | .moduleName n :: rest, env =>
      parse_name_section rest (env.push (.declareModuleName n))
  | .malformed :: rest, env => parse_name_section rest env
  | .unknown :: rest, env => parse_name_section rest env

/-- The structured form in which the valid records of a name section reach
the Environment; malformed and unknown records contribute nothing. -/
def structuredNameOps (records : List NameRecord) : List EnvOp :=
  records.filterMap fun r =>
    match r with
    | .functionName i n => some (.declareFunctionName i n)
    | .moduleName n => some (.declareModuleName n)
    | .malformed => none
    | .unknown => none

/-- Modelled from the spec (§4.2 Type): iterate the declared signatures,
assigning each the next sequential type index, forwarding each into the
Translation State as well as into the Environment. -/
def parse_type_section (types : List Signature) (state : ModuleTranslationState)
    (env : ModuleEnvironment) : ModuleTranslationState × ModuleEnvironment :=
  ({ wasm_types := state.wasm_types ++ types },
   { env with
       log := env.log ++ types.map EnvOp.declareSignature,
       signatures := env.signatures + types.length })

/-- Modelled from the spec (§4.2 Import): record each import descriptor in
encounter order. -/
def parse_import_section (imports : List ImportEntry) (env : ModuleEnvironment) : EnvResult :=
  .ok { env with
          log := env.log ++ imports.map fun i => .declareImport i.module_ i.field i.desc }

/-- Modelled from the spec (§4.2 Function): associate each entry with its
signature index, validating that the index is within the already-parsed type
table's bounds; an out-of-range index is a structural error. -/
def parse_function_section : List Nat → ModuleEnvironment → EnvResult
  | [], env => .ok env
  | sigIndex :: rest, env =>
      if sigIndex < env.signatures then
        parse_function_section rest (env.push (.declareFuncType sigIndex))
      else
        .err (.structural "function signature index out of bounds") env

/-- Modelled from the spec (§4.2 Table). -/
def parse_table_section (tables : List TableType) (env : ModuleEnvironment) : EnvResult :=
  .ok { env with log := env.log ++ tables.map EnvOp.declareTable }

/-- Modelled from the spec (§4.2 Memory). -/
def parse_memory_section (memories : List MemoryType) (env : ModuleEnvironment) : EnvResult :=
  .ok { env with log := env.log ++ memories.map EnvOp.declareMemory }

/-- Modelled from the spec (§4.2 Global). -/
def parse_global_section (globals : List GlobalDecl) (env : ModuleEnvironment) : EnvResult :=
  .ok { env with log := env.log ++ globals.map EnvOp.declareGlobal }

/-- Modelled from the spec (§4.2 Export). -/
def parse_export_section (exports : List ExportDecl) (env : ModuleEnvironment) : EnvResult :=
  .ok { env with log := env.log ++ exports.map EnvOp.declareExport }

/-- Modelled from the spec (§4.2 Start). -/
def parse_start_section (func : Nat) (env : ModuleEnvironment) : EnvResult :=
  .ok (env.push (.declareStartFunction func))

/-- Modelled from the spec (§4.2 Element). -/
def parse_element_section (elements : List ElemSegment) (env : ModuleEnvironment) : EnvResult :=
  .ok { env with log := env.log ++ elements.map EnvOp.declareElements }

/-- Modelled from the spec (§4.2 Data). -/
def parse_data_section (segments : List DataSegment) (env : ModuleEnvironment) : EnvResult :=
  .ok { env with log := env.log ++ segments.map EnvOp.declareData }

/-- Kind of defect signal raised by the non-returning branches of the
dispatch loop. -/
inductive DefectKind
  | moduleLinkingUnimplemented
  | exceptionHandlingUnimplemented
  | unknownSectionUnreachable
  deriving DecidableEq

/-- Source text of each defect signal (module.rs lines 90, 94, 110). -/
def DefectKind.message : DefectKind → String
  | .moduleLinkingUnimplemented => "module linking not implemented yet"
  | .exceptionHandlingUnimplemented => "exception handling not implemented yet"
  | .unknownSectionUnreachable => "internal error: entered unreachable code"

/-- Outcome of the dispatch loop: normal continuation with the accumulated
state and environment, a returned error, or a raised defect signal. -/
inductive Step
  | ok (state : ModuleTranslationState) (env : ModuleEnvironment)
  | err (e : WasmError) (env : ModuleEnvironment)
  | defect (k : DefectKind) (env : ModuleEnvironment)
  deriving DecidableEq

def liftEnv (state : ModuleTranslationState) : EnvResult → Step
  | .ok env => .ok state env
  | .err e env => .err e env

/-- One iteration of the dispatch loop in `translate_module` (module.rs lines
26-111): process a single decoded payload against the current translation
state and environment. -/
def processPayload (payload : Payload) (state : ModuleTranslationState)
    (env : ModuleEnvironment) : Step :=
  match payload with
  | .Version => .ok state env
  | .End => .ok state env
  | .TypeSection types =>
      let r := parse_type_section types state env
      .ok r.1 r.2
  | .ImportSection imports => liftEnv state (parse_import_section imports env)
  | .FunctionSection functions => liftEnv state (parse_function_section functions env)
  | .TableSection tables => liftEnv state (parse_table_section tables env)
  | .MemorySection memories => liftEnv state (parse_memory_section memories env)
  | .GlobalSection globals => liftEnv state (parse_global_section globals env)
  | .ExportSection exports => liftEnv state (parse_export_section exports env)
  | .StartSection func => liftEnv state (parse_start_section func env)
  | .ElementSection elements => liftEnv state (parse_element_section elements env)
  | .CodeSectionStart => .ok state env
  | .CodeSectionEntry code =>
      let code := code.get_binary_reader
      let size := code.bytes_remaining
      let offset := code.original_position
      match code.read_bytes size with
      | .error e => .err (from_binaryreadererror_wasmerror e) env
      | .ok (bytes, _) => liftEnv state (env.define_function_body state bytes offset)
  | .DataSection segments => liftEnv state (parse_data_section segments env)
  | .DataCountSection count => liftEnv state (env.reserve_passive_data count)
  | .InstanceSection => .defect .moduleLinkingUnimplemented env
  | .AliasSection => .defect .moduleLinkingUnimplemented env
  | .ModuleSectionStart => .defect .moduleLinkingUnimplemented env
  | .ModuleSectionEntry => .defect .moduleLinkingUnimplemented env
  | .TagSection => .defect .exceptionHandlingUnimplemented env
  | .CustomSection name data data_offset =>
      if name = "name" then
        liftEnv state (parse_name_section (NameSectionReader.new data data_offset) env)
      else
        liftEnv state (env.custom_section name data)
  | .UnknownSection _ => .defect .unknownSectionUnreachable env

/-- The dispatch loop of `translate_module`: consume the decoder's items in
order; an error item aborts with the mapped decode error; the end of the
items returns the accumulated state. -/
def translateGo : List (Except BinaryReaderError Payload) →
    ModuleTranslationState → ModuleEnvironment → Step
  | [], state, env => .ok state env
  | .error e :: _, _, env => .err (from_binaryreadererror_wasmerror e) env
  | .ok payload :: rest, state, env =>
      match processPayload payload state env with
      | .ok state' env' => translateGo rest state' env'
      | s => s

/-- Embeds `translate_module` (module.rs lines 19-115) over the byte-stream
decoder's output: start from a fresh `ModuleTranslationState` and fold the
dispatch loop over the items the decoder yields for the input buffer. -/
def translate_module (payloads : List (Except BinaryReaderError Payload))
    (environ : ModuleEnvironment) : Step :=
  translateGo payloads ModuleTranslationState.new environ

def Step.env : Step → ModuleEnvironment
  | .ok _ env => env
  | .err _ env => env
  | .defect _ env => env

def Step.isOk : Step → Bool
  | .ok _ _ => true
  | _ => false

def Step.isDecodeError : Step → Bool
  | .err (.decode _ _) _ => true
  | _ => false

def DefectKind.isUnsupportedFeature : DefectKind → Bool
  | .moduleLinkingUnimplemented => true
  | .exceptionHandlingUnimplemented => true
  | .unknownSectionUnreachable => false

/-- The unsupported-feature outcome: the defect raised by the unimplemented
module-linking and exception-handling branches, distinct from the returned
decode and structural errors. -/
def Step.isUnsupportedFeature : Step → Bool
  | .defect k _ => k.isUnsupportedFeature
  | _ => false

/-- Payloads denoting module-linking constructs or the exception-handling tag
section. -/
def Payload.isUnsupportedConstruct : Payload → Bool
  | .InstanceSection => true
  | .AliasSection => true
  | .ModuleSectionStart => true
  | .ModuleSectionEntry => true
  | .TagSection => true
  | _ => false

def Payload.unsupportedKind : Payload → DefectKind
  | .TagSection => .exceptionHandlingUnimplemented
  | _ => .moduleLinkingUnimplemented

def Payload.isDataSection : Payload → Bool
  | .DataSection _ => true
  | _ => false

def Payload.isTypeSection : Payload → Bool
  | .TypeSection _ => true
  | _ => false

def itemIsUnsupported : Except BinaryReaderError Payload → Bool
  | .ok p => p.isUnsupportedConstruct
  | .error _ => false

def itemIsUnknown : Except BinaryReaderError Payload → Bool
  | .ok (.UnknownSection _) => true
  | _ => false

def itemIsData : Except BinaryReaderError Payload → Bool
  | .ok p => p.isDataSection
  | _ => false

def itemIsType : Except BinaryReaderError Payload → Bool
  | .ok p => p.isTypeSection
  | _ => false

/-- Streams the external decoder can actually produce: `parse_all` stops
after yielding an error, so an error item can only be the last item. -/
def wellFormedStream : List (Except BinaryReaderError Payload) → Bool
  | [] => true
  | .ok _ :: rest => wellFormedStream rest
  | .error _ :: rest => rest.isEmpty

/-- The function-index-to-signature mapping accumulated in the environment:
the sequence of signature indices declared for defined functions. -/
def functionTypeIndices (log : List EnvOp) : List Nat :=
  log.filterMap fun op =>
    match op with
    | .declareFuncType i => some i
    | _ => none

/-- Every data-segment declaration in the log is preceded by a passive-data
reservation with the given count; `seen` records whether such a reservation
has already occurred. -/
def dataPrecededByReserve (count : Nat) : Bool → List EnvOp → Bool
  | _, [] => true
  | seen, EnvOp.reservePassiveData c :: rest =>
      dataPrecededByReserve count (seen || c == count) rest
  | seen, EnvOp.declareData _ :: rest => seen && dataPrecededByReserve count seen rest
  | seen, _ :: rest => dataPrecededByReserve count seen rest

/-! Helper lemmas shared by the claim theorems. -/

theorem liftEnv_envResult (state : ModuleTranslationState) (r : EnvResult) :
    (liftEnv state r).env = r.env := by
  cases r <;> rfl

theorem read_bytes_remaining (r : BinaryReader) :
    r.read_bytes r.bytes_remaining =
      .ok (r.bytes, ⟨[], r.pos + r.bytes.length⟩) := by
  simp [BinaryReader.read_bytes, BinaryReader.bytes_remaining]

theorem processPayload_code_entry (code : FunctionBody) (state : ModuleTranslationState)
    (env : ModuleEnvironment) :
    processPayload (.CodeSectionEntry code) state env =
      .ok state
        { env with
            log := env.log ++
              [.defineFunctionBody state code.reader.bytes code.reader.original_position] } := by
  simp [processPayload, FunctionBody.get_binary_reader, read_bytes_remaining,
    ModuleEnvironment.define_function_body, ModuleEnvironment.push, liftEnv,
    BinaryReader.original_position]

theorem parse_name_section_ok (records : List NameRecord) (env : ModuleEnvironment) :
    parse_name_section records env =
      .ok { env with log := env.log ++ structuredNameOps records } := by
  induction records generalizing env with
  | nil => simp [parse_name_section, structuredNameOps]
  | cons r rest ih =>
    cases r <;>
      simp [parse_name_section, structuredNameOps, ModuleEnvironment.push, ih,
        List.filterMap_cons, List.append_assoc]

theorem parse_function_section_err (functions : List Nat) (env : ModuleEnvironment)
    (e : WasmError) (env' : ModuleEnvironment)
    (h : parse_function_section functions env = .err e env') :
    e = .structural "function signature index out of bounds" := by
  induction functions generalizing env with
  | nil => simp [parse_function_section] at h
  | cons i rest ih =>
    by_cases hlt : i < env.signatures
    · rw [parse_function_section, if_pos hlt] at h
      exact ih _ h
    · rw [parse_function_section, if_neg hlt] at h
      exact (EnvResult.err.injEq _ _ _ _).mp h |>.1.symm

theorem parse_function_section_ops (functions : List Nat) (env : ModuleEnvironment) :
    ∃ Δ, (parse_function_section functions env).env.log = env.log ++ Δ ∧
      ∀ op ∈ Δ, ∃ i, op = EnvOp.declareFuncType i := by
  induction functions generalizing env with
  | nil => exact ⟨[], by simp [parse_function_section, EnvResult.env], by simp⟩
  | cons i rest ih =>
    by_cases hlt : i < env.signatures
    · obtain ⟨Δ, hlog, hops⟩ := ih (env.push (.declareFuncType i))
      refine ⟨.declareFuncType i :: Δ, ?_, ?_⟩
      · rw [parse_function_section, if_pos hlt, hlog]
        simp [ModuleEnvironment.push]
      · intro op hop
        rcases List.mem_cons.mp hop with h | h
        · exact ⟨i, h⟩
        · exact hops op h
    · refine ⟨[], ?_, by simp⟩
      rw [parse_function_section, if_neg hlt]
      simp [EnvResult.env]

theorem processPayload_err_structural (p : Payload) (st : ModuleTranslationState)
    (env env' : ModuleEnvironment) (e : WasmError)
    (h : processPayload p st env = .err e env') : ∃ m, e = .structural m := by
  cases p with
  | FunctionSection functions =>
    simp only [processPayload] at h
    cases hr : parse_function_section functions env with
    | ok env₂ => rw [hr] at h; simp [liftEnv] at h
    | err e₂ env₂ =>
      rw [hr] at h
      simp only [liftEnv] at h
      obtain ⟨he, -⟩ := (Step.err.injEq _ _ _ _).mp h
      exact ⟨"function signature index out of bounds",
        he ▸ parse_function_section_err functions env e₂ env₂ hr⟩
  | CodeSectionEntry code =>
    rw [processPayload_code_entry] at h
    exact absurd h (by simp)
  | CustomSection name data data_offset =>
    simp only [processPayload] at h
    by_cases hn : name = "name"
    · rw [if_pos hn, parse_name_section_ok] at h
      simp [liftEnv] at h
    · rw [if_neg hn] at h
      simp [liftEnv, ModuleEnvironment.custom_section] at h
  | _ =>
    simp_all [processPayload, liftEnv, parse_import_section, parse_table_section,
      parse_memory_section, parse_global_section, parse_export_section,
      parse_start_section, parse_element_section, parse_data_section,
      ModuleEnvironment.reserve_passive_data, ModuleEnvironment.push]

theorem translateGo_append_ok (xs ys : List (Except BinaryReaderError Payload))
    (st : ModuleTranslationState) (env : ModuleEnvironment)
    (st' : ModuleTranslationState) (env' : ModuleEnvironment)
    (h : translateGo xs st env = .ok st' env') :
    translateGo (xs ++ ys) st env = translateGo ys st' env' := by
  induction xs generalizing st env with
  | nil =>
    simp only [translateGo] at h
    obtain ⟨h1, h2⟩ := (Step.ok.injEq _ _ _ _).mp h
    simp [h1, h2]
  | cons hd tl ih =>
    cases hd with
    | error e => simp [translateGo] at h
    | ok p =>
      simp only [List.cons_append, translateGo] at h ⊢
      cases hp : processPayload p st env with
      | ok st₂ env₂ => rw [hp] at h; exact ih st₂ env₂ h
      | err e env₂ => rw [hp] at h; exact absurd h (by simp)
      | defect k env₂ => rw [hp] at h; exact absurd h (by simp)

theorem translateGo_append_err (xs ys : List (Except BinaryReaderError Payload))
    (st : ModuleTranslationState) (env : ModuleEnvironment)
    (e : WasmError) (env' : ModuleEnvironment)
    (h : translateGo xs st env = .err e env') :
    translateGo (xs ++ ys) st env = .err e env' := by
  induction xs generalizing st env with
  | nil => simp [translateGo] at h
  | cons hd tl ih =>
    cases hd with
    | error e₂ => simpa [translateGo] using h
    | ok p =>
      simp only [List.cons_append, translateGo] at h ⊢
      cases hp : processPayload p st env with
      | ok st₂ env₂ => rw [hp] at h; exact ih st₂ env₂ h
      | err e₂ env₂ => rw [hp] at h; exact h
      | defect k env₂ => rw [hp] at h; exact absurd h (by simp)

theorem translateGo_append_defect (xs ys : List (Except BinaryReaderError Payload))
    (st : ModuleTranslationState) (env : ModuleEnvironment)
    (k : DefectKind) (env' : ModuleEnvironment)
    (h : translateGo xs st env = .defect k env') :
    translateGo (xs ++ ys) st env = .defect k env' := by
  induction xs generalizing st env with
  | nil => simp [translateGo] at h
  | cons hd tl ih =>
    cases hd with
    | error e₂ => simp [translateGo] at h
    | ok p =>
      simp only [List.cons_append, translateGo] at h ⊢
      cases hp : processPayload p st env with
      | ok st₂ env₂ => rw [hp] at h; exact ih st₂ env₂ h
      | err e₂ env₂ => rw [hp] at h; exact absurd h (by simp)
      | defect k₂ env₂ => rw [hp] at h; exact h

theorem structuredNameOps_no_data (records : List NameRecord) (seg : DataSegment) :
    EnvOp.declareData seg ∉ structuredNameOps records := by
  intro h
  obtain ⟨r, -, hr⟩ := List.mem_filterMap.mp h
  cases r <;> simp at hr

theorem processPayload_log (p : Payload) (st : ModuleTranslationState)
    (env : ModuleEnvironment) :
    ∃ Δ, (processPayload p st env).env.log = env.log ++ Δ ∧
      (p.isDataSection = false → ∀ seg, EnvOp.declareData seg ∉ Δ) := by
  cases p with
  | Version => exact ⟨[], by simp [processPayload, Step.env], by simp⟩
  | End => exact ⟨[], by simp [processPayload, Step.env], by simp⟩
  | TypeSection types =>
    refine ⟨types.map EnvOp.declareSignature, by simp [processPayload, parse_type_section, Step.env], ?_⟩
    intro _ seg h
    obtain ⟨s, -, hs⟩ := List.mem_map.mp h
    simp at hs
  | ImportSection imports =>
    refine ⟨imports.map fun i => .declareImport i.module_ i.field i.desc,
      by simp [processPayload, parse_import_section, liftEnv, Step.env], ?_⟩
    intro _ seg h
    obtain ⟨s, -, hs⟩ := List.mem_map.mp h
    simp at hs
  | FunctionSection functions =>
    obtain ⟨Δ, hlog, hops⟩ := parse_function_section_ops functions env
    refine ⟨Δ, ?_, ?_⟩
    · cases hr : parse_function_section functions env with
      | ok env₂ => rw [hr] at hlog; simpa [processPayload, hr, liftEnv, Step.env, EnvResult.env] using hlog
      | err e₂ env₂ => rw [hr] at hlog; simpa [processPayload, hr, liftEnv, Step.env, EnvResult.env] using hlog
    · intro _ seg h
      obtain ⟨i, hi⟩ := hops _ h
      simp at hi
  | TableSection tables =>
    refine ⟨tables.map EnvOp.declareTable,
      by simp [processPayload, parse_table_section, liftEnv, Step.env], ?_⟩
    intro _ seg h
    obtain ⟨s, -, hs⟩ := List.mem_map.mp h
    simp at hs
  | MemorySection memories =>
    refine ⟨memories.map EnvOp.declareMemory,
      by simp [processPayload, parse_memory_section, liftEnv, Step.env], ?_⟩
    intro _ seg h
    obtain ⟨s, -, hs⟩ := List.mem_map.mp h
    simp at hs
  | GlobalSection globals =>
    refine ⟨globals.map EnvOp.declareGlobal,
      by simp [processPayload, parse_global_section, liftEnv, Step.env], ?_⟩
    intro _ seg h
    obtain ⟨s, -, hs⟩ := List.mem_map.mp h
    simp at hs
  | ExportSection exports =>
    refine ⟨exports.map EnvOp.declareExport,
      by simp [processPayload, parse_export_section, liftEnv, Step.env], ?_⟩
    intro _ seg h
    obtain ⟨s, -, hs⟩ := List.mem_map.mp h
    simp at hs
  | StartSection func =>
    exact ⟨[.declareStartFunction func],
      by simp [processPayload, parse_start_section, liftEnv, Step.env, ModuleEnvironment.push],
      by simp⟩
  | ElementSection elements =>
    refine ⟨elements.map EnvOp.declareElements,
      by simp [processPayload, parse_element_section, liftEnv, Step.env], ?_⟩
    intro _ seg h
    obtain ⟨s, -, hs⟩ := List.mem_map.mp h
    simp at hs
  | CodeSectionStart => exact ⟨[], by simp [processPayload, Step.env], by simp⟩
  | CodeSectionEntry code =>
    exact ⟨[.defineFunctionBody st code.reader.bytes code.reader.original_position],
      by rw [processPayload_code_entry]; simp [Step.env], by simp⟩
  | DataSection segments =>
    refine ⟨segments.map EnvOp.declareData,
      by simp [processPayload, parse_data_section, liftEnv, Step.env], ?_⟩
    intro h
    simp [Payload.isDataSection] at h
  | DataCountSection count =>
    exact ⟨[.reservePassiveData count],
      by simp [processPayload, ModuleEnvironment.reserve_passive_data, liftEnv, Step.env,
        ModuleEnvironment.push],
      by simp⟩
  | InstanceSection => exact ⟨[], by simp [processPayload, Step.env], by simp⟩
  | AliasSection => exact ⟨[], by simp [processPayload, Step.env], by simp⟩
  | ModuleSectionStart => exact ⟨[], by simp [processPayload, Step.env], by simp⟩
  | ModuleSectionEntry => exact ⟨[], by simp [processPayload, Step.env], by simp⟩
  | TagSection => exact ⟨[], by simp [processPayload, Step.env], by simp⟩
  | CustomSection name data data_offset =>
    by_cases hn : name = "name"
    · refine ⟨structuredNameOps (NameSectionReader.new data data_offset),
        by simp [processPayload, hn, parse_name_section_ok, liftEnv, Step.env], ?_⟩
      intro _ seg
      exact structuredNameOps_no_data _ seg
    · exact ⟨[.customSection name data],
        by simp [processPayload, hn, ModuleEnvironment.custom_section, liftEnv, Step.env,
          ModuleEnvironment.push],
        by simp⟩
  | UnknownSection id => exact ⟨[], by simp [processPayload, Step.env], by simp⟩

theorem translateGo_log (items : List (Except BinaryReaderError Payload))
    (st : ModuleTranslationState) (env : ModuleEnvironment) :
    ∃ Δ, (translateGo items st env).env.log = env.log ++ Δ ∧
      ((∀ it ∈ items, itemIsData it = false) → ∀ seg, EnvOp.declareData seg ∉ Δ) := by
  induction items generalizing st env with
  | nil => exact ⟨[], by simp [translateGo, Step.env], by simp⟩
  | cons hd tl ih =>
    cases hd with
    | error e => exact ⟨[], by simp [translateGo, Step.env], by simp⟩
    | ok p =>
      obtain ⟨Δ₁, hlog₁, hnd₁⟩ := processPayload_log p st env
      cases hp : processPayload p st env with
      | ok st₂ env₂ =>
        rw [hp] at hlog₁
        obtain ⟨Δ₂, hlog₂, hnd₂⟩ := ih st₂ env₂
        refine ⟨Δ₁ ++ Δ₂, ?_, ?_⟩
        · simp only [translateGo, hp]
          rw [hlog₂]
          simp only [Step.env] at hlog₁
          rw [hlog₁, List.append_assoc]
        · intro hall seg hmem
          rcases List.mem_append.mp hmem with hmem | hmem
          · have hp_not : p.isDataSection = false := by
              have := hall (.ok p) (by simp)
              simpa [itemIsData] using this
            exact hnd₁ hp_not seg hmem
          · exact hnd₂ (fun it hit => hall it (by simp [hit])) seg hmem
      | err e env₂ =>
        rw [hp] at hlog₁
        refine ⟨Δ₁, ?_, ?_⟩
        · simp only [translateGo, hp]
          simpa [Step.env] using hlog₁
        · intro hall seg
          have hp_not : p.isDataSection = false := by
            have := hall (.ok p) (by simp)
            simpa [itemIsData] using this
          exact hnd₁ hp_not seg
      | defect k env₂ =>
        rw [hp] at hlog₁
        refine ⟨Δ₁, ?_, ?_⟩
        · simp only [translateGo, hp]
          simpa [Step.env] using hlog₁
        · intro hall seg
          have hp_not : p.isDataSection = false := by
            have := hall (.ok p) (by simp)
            simpa [itemIsData] using this
          exact hnd₁ hp_not seg

theorem dataPrecededByReserve_seen (count : Nat) (log : List EnvOp) :
    dataPrecededByReserve count true log = true := by
  induction log with
  | nil => rfl
  | cons op rest ih => cases op <;> simp [dataPrecededByReserve, ih]

theorem dataPrecededByReserve_no_data (count : Nat) (seen : Bool) (log : List EnvOp)
    (h : ∀ seg, EnvOp.declareData seg ∉ log) :
    dataPrecededByReserve count seen log = true := by
  induction log generalizing seen with
  | nil => rfl
  | cons op rest ih =>
    cases op with
    | declareData seg => exact absurd (List.mem_cons_self _ _) (h seg)
    | reservePassiveData c =>
      simp only [dataPrecededByReserve]
      exact ih _ fun seg hseg => h seg (List.mem_cons_of_mem _ hseg)
    | _ =>
      simp only [dataPrecededByReserve]
      exact ih seen fun seg hseg => h seg (List.mem_cons_of_mem _ hseg)

theorem dataPrecededByReserve_bridge (count : Nat) (seen : Bool)
    (pre post : List EnvOp) (h : ∀ seg, EnvOp.declareData seg ∉ pre) :
    dataPrecededByReserve count seen (pre ++ EnvOp.reservePassiveData count :: post) = true := by
  induction pre generalizing seen with
  | nil =>
    simp only [List.nil_append, dataPrecededByReserve]
    have hc : (count == count) = true := by simp
    rw [hc, Bool.or_true]
    exact dataPrecededByReserve_seen count post
  | cons op rest ih =>
    cases op with
    | declareData seg => exact absurd (List.mem_cons_self _ _) (h seg)
    | reservePassiveData c =>
      simp only [List.cons_append, dataPrecededByReserve]
      exact ih _ fun seg hseg => h seg (List.mem_cons_of_mem _ hseg)
    | _ =>
      simp only [List.cons_append, dataPrecededByReserve]
      exact ih seen fun seg hseg => h seg (List.mem_cons_of_mem _ hseg)

theorem processPayload_unsupported (p : Payload) (st : ModuleTranslationState)
    (env : ModuleEnvironment) (h : p.isUnsupportedConstruct = true) :
    processPayload p st env = .defect p.unsupportedKind env := by
  cases p <;> simp_all [Payload.isUnsupportedConstruct, processPayload, Payload.unsupportedKind]

theorem processPayload_not_unknown_defect (p : Payload) (st : ModuleTranslationState)
    (env env' : ModuleEnvironment) (hnp : ∀ id, p ≠ .UnknownSection id) :
    processPayload p st env ≠ .defect .unknownSectionUnreachable env' := by
  intro h
  cases p with
  | FunctionSection functions =>
    simp only [processPayload] at h
    cases hr : parse_function_section functions env with
    | ok env₂ => rw [hr] at h; simp [liftEnv] at h
    | err e₂ env₂ => rw [hr] at h; simp [liftEnv] at h
  | CodeSectionEntry code =>
    rw [processPayload_code_entry] at h
    exact absurd h (by simp)
  | CustomSection name data data_offset =>
    simp only [processPayload] at h
    by_cases hn : name = "name"
    · rw [if_pos hn, parse_name_section_ok] at h
      simp [liftEnv] at h
    · rw [if_neg hn] at h
      simp [liftEnv, ModuleEnvironment.custom_section] at h
  | UnknownSection id => exact hnp id rfl
  | _ =>
    simp_all [processPayload, liftEnv, parse_import_section, parse_table_section,
      parse_memory_section, parse_global_section, parse_export_section,
      parse_start_section, parse_element_section, parse_data_section,
      ModuleEnvironment.reserve_passive_data, ModuleEnvironment.push]

theorem translateGo_not_unknown_defect (items : List (Except BinaryReaderError Payload))
    (st : ModuleTranslationState) (env : ModuleEnvironment)
    (h : ∀ it ∈ items, itemIsUnknown it = false) (env' : ModuleEnvironment) :
    translateGo items st env ≠ .defect .unknownSectionUnreachable env' := by
  induction items generalizing st env with
  | nil => simp [translateGo]
  | cons hd tl ih =>
    cases hd with
    | error e => simp [translateGo]
    | ok p =>
      intro hgo
      simp only [translateGo] at hgo
      cases hp : processPayload p st env with
      | ok st₂ env₂ =>
        rw [hp] at hgo
        exact ih st₂ env₂ (fun it hit => h it (by simp [hit])) hgo
      | err e₂ env₂ => rw [hp] at hgo; simp at hgo
      | defect k₂ env₂ =>
        rw [hp] at hgo
        obtain ⟨hk, -⟩ := (Step.defect.injEq _ _ _ _).mp hgo
        have hnp : ∀ id, p ≠ Payload.UnknownSection id := by
          intro id hid
          have := h (.ok p) (by simp)
          rw [hid] at this
          simp [itemIsUnknown] at this
        exact processPayload_not_unknown_defect p st env env₂ hnp (by rw [hp, hk])

theorem processPayload_state_frame (p : Payload) (st : ModuleTranslationState)
    (env : ModuleEnvironment) (hp : p.isTypeSection = false)
    (st' : ModuleTranslationState) (env' : ModuleEnvironment)
    (h : processPayload p st env = .ok st' env') : st' = st := by
  cases p with
  | TypeSection types => simp [Payload.isTypeSection] at hp
  | FunctionSection functions =>
    simp only [processPayload] at h
    cases hr : parse_function_section functions env with
    | ok env₂ =>
      rw [hr] at h
      simp only [liftEnv] at h
      exact ((Step.ok.injEq _ _ _ _).mp h).1.symm
    | err e₂ env₂ => rw [hr] at h; simp [liftEnv] at h
  | CodeSectionEntry code =>
    rw [processPayload_code_entry] at h
    exact ((Step.ok.injEq _ _ _ _).mp h).1.symm
  | CustomSection name data data_offset =>
    simp only [processPayload] at h
    by_cases hn : name = "name"
    · rw [if_pos hn, parse_name_section_ok] at h
      simp only [liftEnv] at h
      exact ((Step.ok.injEq _ _ _ _).mp h).1.symm
    · rw [if_neg hn] at h
      simp only [liftEnv, ModuleEnvironment.custom_section] at h
      exact ((Step.ok.injEq _ _ _ _).mp h).1.symm
  | _ =>
    simp_all [processPayload, liftEnv, parse_import_section, parse_table_section,
      parse_memory_section, parse_global_section, parse_export_section,
      parse_start_section, parse_element_section, parse_data_section,
      ModuleEnvironment.reserve_passive_data, ModuleEnvironment.push]

theorem translateGo_state_frame (items : List (Except BinaryReaderError Payload))
    (st : ModuleTranslationState) (env : ModuleEnvironment)
    (hitems : ∀ it ∈ items, itemIsType it = false)
    (st' : ModuleTranslationState) (env' : ModuleEnvironment)
    (h : translateGo items st env = .ok st' env') : st' = st := by
  induction items generalizing st env with
  | nil =>
    simp only [translateGo] at h
    exact ((Step.ok.injEq _ _ _ _).mp h).1.symm
  | cons hd tl ih =>
    cases hd with
    | error e => simp [translateGo] at h
    | ok p =>
      simp only [translateGo] at h
      cases hp : processPayload p st env with
      | ok st₂ env₂ =>
        rw [hp] at h
        have hptype : p.isTypeSection = false := by
          have := hitems (.ok p) (by simp)
          simpa [itemIsType] using this
        have h₂ := ih st₂ env₂ (fun it hit => hitems it (by simp [hit])) h
        rw [h₂]
        exact processPayload_state_frame p st env hptype st₂ env₂ hp
      | err e₂ env₂ => rw [hp] at h; simp at h
      | defect k₂ env₂ => rw [hp] at h; simp at h

theorem translateGo_unsupported (items : List (Except BinaryReaderError Payload))
    (st : ModuleTranslationState) (env : ModuleEnvironment)
    (hwf : wellFormedStream items = true)
    (hany : items.any itemIsUnsupported = true) :
    (translateGo items st env).isOk = false ∧
      (translateGo items st env).isDecodeError = false := by
  induction items generalizing st env with
  | nil => simp at hany
  | cons hd tl ih =>
    cases hd with
    | error e =>
      simp only [wellFormedStream] at hwf
      rw [List.isEmpty_iff] at hwf
      subst hwf
      simp [itemIsUnsupported] at hany
    | ok p =>
      simp only [wellFormedStream] at hwf
      simp only [List.any_cons, Bool.or_eq_true] at hany
      by_cases hu : p.isUnsupportedConstruct = true
      · rw [show translateGo (.ok p :: tl) st env =
            (match processPayload p st env with
              | .ok st' env' => translateGo tl st' env'
              | s => s) from rfl,
          processPayload_unsupported p st env hu]
        simp [Step.isOk, Step.isDecodeError]
      · have htl : tl.any itemIsUnsupported = true := by
          rcases hany with h | h
          · exact absurd (by simpa [itemIsUnsupported] using h) hu
          · exact h
        rw [show translateGo (.ok p :: tl) st env =
            (match processPayload p st env with
              | .ok st' env' => translateGo tl st' env'
              | s => s) from rfl]
        cases hp : processPayload p st env with
        | ok st₂ env₂ => exact ih st₂ env₂ hwf htl
        | err e₂ env₂ =>
          obtain ⟨m, hm⟩ := processPayload_err_structural p st env env₂ e₂ hp
          subst hm
          simp [Step.isOk, Step.isDecodeError]
        | defect k₂ env₂ => simp [Step.isOk, Step.isDecodeError]

/-! Claim theorems. -/

/-- C1 (counterexample): the claim as stated is false: the stream consisting
of a function section referencing the out-of-range signature index 0 followed
by an instance section contains a module-linking construct, yet
`translate_module` fails with a structural error, not with the
unsupported-feature outcome. -/
theorem c1_counterexample :
    ([.ok (Payload.FunctionSection [0]), .ok Payload.InstanceSection] :
        List (Except BinaryReaderError Payload)).any itemIsUnsupported = true ∧
    wellFormedStream [.ok (Payload.FunctionSection [0]), .ok Payload.InstanceSection] = true ∧
    translate_module [.ok (Payload.FunctionSection [0]), .ok Payload.InstanceSection]
        ModuleEnvironment.new =
      .err (.structural "function signature index out of bounds") ModuleEnvironment.new ∧
    (translate_module [.ok (Payload.FunctionSection [0]), .ok Payload.InstanceSection]
        ModuleEnvironment.new).isUnsupportedFeature = false := by
  exact ⟨rfl, rfl, rfl, rfl⟩

/-- C1 (amended): for every well-formed decoder output stream (the decoder
yields an error only as its last item) containing a module-linking construct
or an exception-handling tag section, `translate_module` never returns
successfully and never reports a decode error; and whenever every payload
preceding such a construct processes without error, it terminates with the
corresponding unsupported-feature defect (the `unimplemented` signal), an
outcome distinct from returned decode and structural errors.  The original
unconditional "fails with an unsupported-feature error" is weakened only as
the counterexample forces: an earlier section translator's structural error
can preempt the unsupported-feature outcome. -/
theorem c1_unsupported_feature_amended
    (items : List (Except BinaryReaderError Payload)) (environ : ModuleEnvironment)
    (hwf : wellFormedStream items = true)
    (hany : items.any itemIsUnsupported = true) :
    (translate_module items environ).isOk = false ∧
    (translate_module items environ).isDecodeError = false ∧
    ∀ xs p ys st₁ env₁, items = xs ++ .ok p :: ys →
      p.isUnsupportedConstruct = true →
      translateGo xs ModuleTranslationState.new environ = .ok st₁ env₁ →
      translate_module items environ = .defect p.unsupportedKind env₁ ∧
        (p.unsupportedKind).isUnsupportedFeature = true := by
  refine ⟨(translateGo_unsupported items _ environ hwf hany).1,
    (translateGo_unsupported items _ environ hwf hany).2, ?_⟩
  intro xs p ys st₁ env₁ heq hu hpre
  subst heq
  constructor
  · unfold translate_module
    rw [translateGo_append_ok xs (.ok p :: ys) _ _ _ _ hpre,
      show translateGo (.ok p :: ys) st₁ env₁ =
        (match processPayload p st₁ env₁ with
          | .ok st' env' => translateGo ys st' env'
          | s => s) from rfl,
      processPayload_unsupported p st₁ env₁ hu]
  · cases p <;> simp_all [Payload.unsupportedKind, DefectKind.isUnsupportedFeature,
      Payload.isUnsupportedConstruct]

/-- C1 (witness for the amended theorem): a version marker followed by a tag
section makes translation terminate with the exception-handling
unsupported-feature defect. -/
theorem c1_unsupported_feature_amended_witness :
    wellFormedStream [.ok Payload.Version, .ok Payload.TagSection] = true ∧
    ([.ok Payload.Version, .ok Payload.TagSection] :
        List (Except BinaryReaderError Payload)).any itemIsUnsupported = true ∧
    (translate_module [.ok Payload.Version, .ok Payload.TagSection]
        ModuleEnvironment.new).isOk = false ∧
    translate_module [.ok Payload.Version, .ok Payload.TagSection] ModuleEnvironment.new =
      .defect Payload.TagSection.unsupportedKind ModuleEnvironment.new := by
  refine ⟨rfl, rfl,
    (c1_unsupported_feature_amended [.ok Payload.Version, .ok Payload.TagSection]
      ModuleEnvironment.new rfl rfl).1, ?_⟩
  exact ((c1_unsupported_feature_amended [.ok Payload.Version, .ok Payload.TagSection]
    ModuleEnvironment.new rfl rfl).2.2
    [.ok Payload.Version] Payload.TagSection [] ModuleTranslationState.new
    ModuleEnvironment.new rfl rfl rfl).1

/-- C2: a code-section entry undergoes no instruction decoding: processing it
invokes exactly one environment operation, `define_function_body`, passing
the entry reader's full remaining byte extent, the current Translation State
snapshot, and the body's starting offset in the original buffer, and does
nothing else — within a whole run, processing continues from exactly that one
appended operation with the state unchanged. -/
theorem c2_code_entry_forwarded (code : FunctionBody) (st : ModuleTranslationState)
    (env : ModuleEnvironment) :
    processPayload (.CodeSectionEntry code) st env =
      .ok st { env with log := env.log ++
        [.defineFunctionBody st code.reader.bytes code.reader.original_position] } ∧
    ∀ xs ys env₀ st₁ env₁,
      translateGo xs ModuleTranslationState.new env₀ = .ok st₁ env₁ →
      translate_module (xs ++ .ok (.CodeSectionEntry code) :: ys) env₀ =
        translateGo ys st₁ { env₁ with log := env₁.log ++
          [.defineFunctionBody st₁ code.reader.bytes code.reader.original_position] } := by
  refine ⟨processPayload_code_entry code st env, ?_⟩
  intro xs ys env₀ st₁ env₁ hpre
  unfold translate_module
  rw [translateGo_append_ok xs (.ok (.CodeSectionEntry code) :: ys) _ _ _ _ hpre,
    show translateGo (.ok (Payload.CodeSectionEntry code) :: ys) st₁ env₁ =
      (match processPayload (Payload.CodeSectionEntry code) st₁ env₁ with
        | .ok st' env' => translateGo ys st' env'
        | s => s) from rfl,
    processPayload_code_entry code st₁ env₁]

/-- C2 (witness): a concrete two-byte body at offset 42 is forwarded verbatim
as one `defineFunctionBody` operation. -/
theorem c2_code_entry_forwarded_witness :
    processPayload (.CodeSectionEntry ⟨⟨[3, 7], 42⟩⟩) ModuleTranslationState.new
        ModuleEnvironment.new =
      .ok ModuleTranslationState.new
        { ModuleEnvironment.new with
            log := ModuleEnvironment.new.log ++
              [.defineFunctionBody ModuleTranslationState.new [3, 7] 42] } ∧
    translateGo [] ModuleTranslationState.new ModuleEnvironment.new =
      .ok ModuleTranslationState.new ModuleEnvironment.new ∧
    translate_module ([] ++ .ok (.CodeSectionEntry ⟨⟨[3, 7], 42⟩⟩) :: [])
        ModuleEnvironment.new =
      translateGo [] ModuleTranslationState.new
        { ModuleEnvironment.new with
            log := ModuleEnvironment.new.log ++
              [.defineFunctionBody ModuleTranslationState.new [3, 7] 42] } := by
  exact ⟨(c2_code_entry_forwarded ⟨⟨[3, 7], 42⟩⟩ ModuleTranslationState.new
      ModuleEnvironment.new).1, rfl,
    (c2_code_entry_forwarded ⟨⟨[3, 7], 42⟩⟩ ModuleTranslationState.new
      ModuleEnvironment.new).2 [] [] ModuleEnvironment.new ModuleTranslationState.new
      ModuleEnvironment.new rfl⟩

/-- C3: when the byte-stream decoder yields a decode error — which, with the
lazily driven decoder, happens exactly when every payload before it processes
without error — `translate_module` returns that error, carrying its byte
offset, as its single terminal result; the result does not depend on any item
after the error (none is dispatched), and no partially built Translation
State is returned. -/
theorem c3_decode_error_terminal (xs : List (Except BinaryReaderError Payload))
    (e : BinaryReaderError) (rest : List (Except BinaryReaderError Payload))
    (env₀ : ModuleEnvironment) (st₁ : ModuleTranslationState) (env₁ : ModuleEnvironment)
    (hpre : translateGo xs ModuleTranslationState.new env₀ = .ok st₁ env₁) :
    translate_module (xs ++ .error e :: rest) env₀ =
      .err (from_binaryreadererror_wasmerror e) env₁ ∧
    from_binaryreadererror_wasmerror e = .decode e.message e.offset ∧
    ∀ st' env', translate_module (xs ++ .error e :: rest) env₀ ≠ .ok st' env' := by
  have h1 : translate_module (xs ++ .error e :: rest) env₀ =
      .err (from_binaryreadererror_wasmerror e) env₁ := by
    unfold translate_module
    rw [translateGo_append_ok xs (.error e :: rest) _ _ _ _ hpre]
    rfl
  refine ⟨h1, rfl, fun st' env' hok => ?_⟩
  rw [h1] at hok
  exact absurd hok (by simp)

/-- C3 (witness): a decode error at offset 7 after a version marker is the
returned terminal result, items after the error notwithstanding. -/
theorem c3_decode_error_terminal_witness :
    translateGo [.ok Payload.Version] ModuleTranslationState.new ModuleEnvironment.new =
      .ok ModuleTranslationState.new ModuleEnvironment.new ∧
    translate_module ([.ok Payload.Version] ++ .error ⟨"bad leb128", 7⟩ :: [.ok Payload.End])
        ModuleEnvironment.new =
      .err (.decode "bad leb128" 7) ModuleEnvironment.new := by
  refine ⟨rfl, ?_⟩
  exact (c3_decode_error_terminal [.ok Payload.Version] ⟨"bad leb128", 7⟩ [.ok Payload.End]
    ModuleEnvironment.new ModuleTranslationState.new ModuleEnvironment.new rfl).1

/-- C4: translation is deterministic in the decoder's output: two runs of
`translate_module` over the same item sequence with equally-initialized
environments yield Translation States with identical signature tables and
identical function-index-to-signature declaration sequences. -/
theorem c4_translation_deterministic (items : List (Except BinaryReaderError Payload))
    (env₁ env₂ : ModuleEnvironment) (heq : env₁ = env₂)
    (st₁ : ModuleTranslationState) (e₁ : ModuleEnvironment)
    (st₂ : ModuleTranslationState) (e₂ : ModuleEnvironment)
    (h₁ : translate_module items env₁ = .ok st₁ e₁)
    (h₂ : translate_module items env₂ = .ok st₂ e₂) :
    st₁.wasm_types = st₂.wasm_types ∧
      functionTypeIndices e₁.log = functionTypeIndices e₂.log := by
  subst heq
  rw [h₁] at h₂
  obtain ⟨hst, henv⟩ := (Step.ok.injEq _ _ _ _).mp h₂
  exact ⟨by rw [hst], by rw [henv]⟩

/-- C4 (witness): a one-type, one-function module translates twice to the
same signature table and the same function-signature declarations. -/
theorem c4_translation_deterministic_witness :
    translate_module [.ok (.TypeSection [⟨[.i32], [.i32]⟩]), .ok (.FunctionSection [0])]
        ModuleEnvironment.new =
      .ok ⟨[⟨[.i32], [.i32]⟩]⟩
        ⟨[.declareSignature ⟨[.i32], [.i32]⟩, .declareFuncType 0], 1⟩ ∧
    ((⟨[⟨[.i32], [.i32]⟩]⟩ : ModuleTranslationState).wasm_types =
        (⟨[⟨[.i32], [.i32]⟩]⟩ : ModuleTranslationState).wasm_types ∧
      functionTypeIndices
          (⟨[.declareSignature ⟨[.i32], [.i32]⟩, .declareFuncType 0], 1⟩ :
            ModuleEnvironment).log =
        functionTypeIndices
          (⟨[.declareSignature ⟨[.i32], [.i32]⟩, .declareFuncType 0], 1⟩ :
            ModuleEnvironment).log) := by
  have h : translate_module
      [.ok (.TypeSection [⟨[.i32], [.i32]⟩]), .ok (.FunctionSection [0])]
      ModuleEnvironment.new =
    .ok ⟨[⟨[.i32], [.i32]⟩]⟩
      ⟨[.declareSignature ⟨[.i32], [.i32]⟩, .declareFuncType 0], 1⟩ := rfl
  exact ⟨h, c4_translation_deterministic _ _ _ rfl _ _ _ _ h h⟩

/-- C5: every custom-section payload is dispatched by its name: a custom
section named exactly "name" is decoded by the name-section parser into
structured records and forwarded to the Environment in that structured form,
while a custom section with any other name is forwarded verbatim to the
Environment's `custom_section` operation as its name plus its opaque bytes,
with no interpretation. -/
theorem c5_custom_section_dispatch (name : String) (data : List Nat) (data_offset : Nat)
    (st : ModuleTranslationState) (env : ModuleEnvironment) :
    (name = "name" →
      processPayload (.CustomSection name data data_offset) st env =
        .ok st { env with
          log := env.log ++ structuredNameOps (NameSectionReader.new data data_offset) }) ∧
    (name ≠ "name" →
      processPayload (.CustomSection name data data_offset) st env =
        .ok st { env with log := env.log ++ [.customSection name data] }) := by
  constructor
  · intro h
    simp only [processPayload, if_pos h, parse_name_section_ok, liftEnv]
  · intro h
    simp only [processPayload, if_neg h, ModuleEnvironment.custom_section,
      ModuleEnvironment.push, liftEnv]

/-- C5 (witness): the "name" custom section is forwarded structured; a
"producers" custom section is forwarded verbatim. -/
theorem c5_custom_section_dispatch_witness :
    processPayload (.CustomSection "name" [1, 0, 7] 3) ModuleTranslationState.new
        ModuleEnvironment.new =
      .ok ModuleTranslationState.new
        { ModuleEnvironment.new with
            log := ModuleEnvironment.new.log ++
              structuredNameOps (NameSectionReader.new [1, 0, 7] 3) } ∧
    processPayload (.CustomSection "producers" [9, 9] 3) ModuleTranslationState.new
        ModuleEnvironment.new =
      .ok ModuleTranslationState.new
        { ModuleEnvironment.new with
            log := ModuleEnvironment.new.log ++ [.customSection "producers" [9, 9]] } := by
  exact ⟨(c5_custom_section_dispatch "name" [1, 0, 7] 3 ModuleTranslationState.new
      ModuleEnvironment.new).1 rfl,
    (c5_custom_section_dispatch "producers" [9, 9] 3 ModuleTranslationState.new
      ModuleEnvironment.new).2 (by decide)⟩

/-- C6: a custom section named "name" containing a malformed function-name
sub-entry never aborts translation: the malformed sub-entry is skipped
individually, translation of the whole stream still succeeds whenever the
surrounding payloads process without error, and every valid function name
from that section is retained in the environment's final operation log. -/
theorem c6_name_section_degradation (data : List Nat) (data_offset : Nat)
    (xs ys : List (Except BinaryReaderError Payload)) (env₀ : ModuleEnvironment)
    (st₁ : ModuleTranslationState) (env₁ : ModuleEnvironment)
    (stN : ModuleTranslationState) (envN : ModuleEnvironment)
    (st₂ : ModuleTranslationState) (env₂ : ModuleEnvironment)
    (_hmal : NameRecord.malformed ∈ NameSectionReader.new data data_offset)
    (hpre : translateGo xs ModuleTranslationState.new env₀ = .ok st₁ env₁)
    (hname : processPayload (.CustomSection "name" data data_offset) st₁ env₁ = .ok stN envN)
    (hpost : translateGo ys stN envN = .ok st₂ env₂) :
    translate_module (xs ++ .ok (.CustomSection "name" data data_offset) :: ys) env₀ =
      .ok st₂ env₂ ∧
    ∀ i n, NameRecord.functionName i n ∈ NameSectionReader.new data data_offset →
      EnvOp.declareFunctionName i n ∈ env₂.log := by
  constructor
  · unfold translate_module
    rw [translateGo_append_ok xs _ _ _ _ _ hpre,
      show translateGo (.ok (Payload.CustomSection "name" data data_offset) :: ys) st₁ env₁ =
        (match processPayload (Payload.CustomSection "name" data data_offset) st₁ env₁ with
          | .ok st' env' => translateGo ys st' env'
          | s => s) from rfl,
      hname]
    exact hpost
  · intro i n hmem
    have hcomp : processPayload (.CustomSection "name" data data_offset) st₁ env₁ =
        liftEnv st₁ (parse_name_section (NameSectionReader.new data data_offset) env₁) := rfl
    rw [hcomp, parse_name_section_ok] at hname
    simp only [liftEnv] at hname
    obtain ⟨-, henv⟩ := (Step.ok.injEq _ _ _ _).mp hname
    have hops : EnvOp.declareFunctionName i n ∈
        structuredNameOps (NameSectionReader.new data data_offset) :=
      List.mem_filterMap.mpr ⟨.functionName i n, hmem, rfl⟩
    obtain ⟨Δ, hΔ, -⟩ := translateGo_log ys stN envN
    rw [hpost] at hΔ
    simp only [Step.env] at hΔ
    rw [hΔ, ← henv]
    exact List.mem_append_left _ (List.mem_append_right _ hops)

/-- C6 (witness): a name section tokenizing to one malformed record and one
valid function-name record still yields a successful translation retaining
the valid name. -/
theorem c6_name_section_degradation_witness :
    NameRecord.malformed ∈ NameSectionReader.new [0, 5, 5, 1, 3, 9] 0 ∧
    translate_module
        ([.ok Payload.Version] ++ .ok (.CustomSection "name" [0, 5, 5, 1, 3, 9] 0) ::
          [.ok Payload.End]) ModuleEnvironment.new =
      .ok ModuleTranslationState.new ⟨[.declareFunctionName 3 (toString 9)], 0⟩ ∧
    EnvOp.declareFunctionName 3 (toString 9) ∈
      (⟨[.declareFunctionName 3 (toString 9)], 0⟩ : ModuleEnvironment).log := by
  have h := c6_name_section_degradation [0, 5, 5, 1, 3, 9] 0 [.ok Payload.Version]
    [.ok Payload.End] ModuleEnvironment.new ModuleTranslationState.new ModuleEnvironment.new
    ModuleTranslationState.new ⟨[.declareFunctionName 3 (toString 9)], 0⟩
    ModuleTranslationState.new ⟨[.declareFunctionName 3 (toString 9)], 0⟩
    (by decide) rfl rfl rfl
  exact ⟨by decide, h.1, h.2 3 (toString 9) (by decide)⟩

/-- C7: under the decoder contract that every unrecognized section id is
classified as a custom section — that is, no unknown-section payload occurs
in the stream — the unknown-section branch is never the outcome of any run;
and if that branch is ever taken it raises a defect signal, not a
recoverable error value returned to the caller. -/
theorem c7_unknown_section_unreachable (items : List (Except BinaryReaderError Payload))
    (environ : ModuleEnvironment)
    (h : ∀ it ∈ items, itemIsUnknown it = false) :
    (∀ env', translate_module items environ ≠ .defect .unknownSectionUnreachable env') ∧
    ∀ id st env, processPayload (.UnknownSection id) st env =
      .defect .unknownSectionUnreachable env := by
  exact ⟨fun env' => translateGo_not_unknown_defect items _ environ h env',
    fun id st env => rfl⟩

/-- C7 (witness): a stream with no unknown-section payload cannot end in the
unreachable defect, while an unknown-section payload itself raises it. -/
theorem c7_unknown_section_unreachable_witness :
    (itemIsUnknown (.ok Payload.Version) = false ∧
      itemIsUnknown (.ok Payload.End) = false) ∧
    translate_module [.ok Payload.Version, .ok Payload.End] ModuleEnvironment.new ≠
      .defect .unknownSectionUnreachable ModuleEnvironment.new ∧
    processPayload (.UnknownSection 99) ModuleTranslationState.new ModuleEnvironment.new =
      .defect .unknownSectionUnreachable ModuleEnvironment.new := by
  refine ⟨⟨rfl, rfl⟩, ?_, ?_⟩
  · exact (c7_unknown_section_unreachable [.ok Payload.Version, .ok Payload.End]
      ModuleEnvironment.new (by decide)).1 ModuleEnvironment.new
  · exact (c7_unknown_section_unreachable [.ok Payload.Version, .ok Payload.End]
      ModuleEnvironment.new (by decide)).2 99 ModuleTranslationState.new ModuleEnvironment.new

/-- C8: when a data-count section precedes any data section in the stream,
the `reserve_passive_data` operation is invoked with the declared count
before any data segment is dispatched to the data-section translator: in the
environment operation log of the run's outcome, every data-segment
declaration is preceded by a passive-data reservation with that count. -/
theorem c8_reserve_before_data (xs : List (Except BinaryReaderError Payload)) (count : Nat)
    (ys : List (Except BinaryReaderError Payload)) (env₀ : ModuleEnvironment)
    (hlog : env₀.log = [])
    (hxs : ∀ it ∈ xs, itemIsData it = false) :
    dataPrecededByReserve count false
      ((translate_module (xs ++ .ok (.DataCountSection count) :: ys) env₀).env).log = true := by
  unfold translate_module
  obtain ⟨Γ, hΓ, hnd⟩ := translateGo_log xs ModuleTranslationState.new env₀
  cases hgo : translateGo xs ModuleTranslationState.new env₀ with
  | ok st₁ env₁ =>
    rw [hgo] at hΓ
    simp only [Step.env] at hΓ
    rw [hlog, List.nil_append] at hΓ
    rw [translateGo_append_ok xs _ _ _ _ _ hgo,
      show translateGo (.ok (Payload.DataCountSection count) :: ys) st₁ env₁ =
        (match processPayload (Payload.DataCountSection count) st₁ env₁ with
          | .ok st' env' => translateGo ys st' env'
          | s => s) from rfl,
      show processPayload (Payload.DataCountSection count) st₁ env₁ =
        .ok st₁ (env₁.push (.reservePassiveData count)) from rfl]
    obtain ⟨Δ, hΔ, -⟩ := translateGo_log ys st₁ (env₁.push (.reservePassiveData count))
    rw [show (translateGo ys st₁ (env₁.push (EnvOp.reservePassiveData count))).env.log =
        (env₁.push (EnvOp.reservePassiveData count)).log ++ Δ from hΔ,
      show (env₁.push (EnvOp.reservePassiveData count)).log =
        env₁.log ++ [EnvOp.reservePassiveData count] from rfl,
      hΓ, List.append_assoc, List.singleton_append]
    exact dataPrecededByReserve_bridge count false Γ Δ (hnd hxs)
  | err e env₁ =>
    rw [hgo] at hΓ
    simp only [Step.env] at hΓ
    rw [hlog, List.nil_append] at hΓ
    rw [translateGo_append_err xs _ _ _ _ _ hgo]
    simp only [Step.env]
    rw [hΓ]
    exact dataPrecededByReserve_no_data count false Γ (hnd hxs)
  | defect k env₁ =>
    rw [hgo] at hΓ
    simp only [Step.env] at hΓ
    rw [hlog, List.nil_append] at hΓ
    rw [translateGo_append_defect xs _ _ _ _ _ hgo]
    simp only [Step.env]
    rw [hΓ]
    exact dataPrecededByReserve_no_data count false Γ (hnd hxs)

/-- C8 (witness): a data-count of 2 followed by a data section leaves a log
in which the reservation precedes the data-segment declaration. -/
theorem c8_reserve_before_data_witness :
    ModuleEnvironment.new.log = [] ∧
    itemIsData (.ok Payload.Version) = false ∧
    dataPrecededByReserve 2 false
      ((translate_module
          ([.ok Payload.Version] ++ .ok (.DataCountSection 2) ::
            [.ok (.DataSection [⟨.passive, [7]⟩])]) ModuleEnvironment.new).env).log = true := by
  exact ⟨rfl, rfl, c8_reserve_before_data [.ok Payload.Version] 2
    [.ok (.DataSection [⟨.passive, [7]⟩])] ModuleEnvironment.new rfl (by decide)⟩

/-- C9: a code-section entry whose body is a byte range of length 0 still
registers a Function Body Descriptor — the body's starting offset with an
empty byte range — through `define_function_body`, and translation completes
without raising any error. -/
theorem c9_empty_body_registered (xs : List (Except BinaryReaderError Payload))
    (offset : Nat) (env₀ : ModuleEnvironment)
    (st₁ : ModuleTranslationState) (env₁ : ModuleEnvironment)
    (hpre : translateGo xs ModuleTranslationState.new env₀ = .ok st₁ env₁) :
    translate_module
        (xs ++ [.ok .CodeSectionStart, .ok (.CodeSectionEntry ⟨⟨[], offset⟩⟩)]) env₀ =
      .ok st₁ { env₁ with log := env₁.log ++ [.defineFunctionBody st₁ [] offset] } := by
  unfold translate_module
  rw [translateGo_append_ok xs _ _ _ _ _ hpre]
  rfl

/-- C9 (witness): the sole, empty function body at offset 9 is registered
and translation succeeds. -/
theorem c9_empty_body_registered_witness :
    translateGo [.ok Payload.Version] ModuleTranslationState.new ModuleEnvironment.new =
      .ok ModuleTranslationState.new ModuleEnvironment.new ∧
    translate_module
        ([.ok Payload.Version] ++
          [.ok .CodeSectionStart, .ok (.CodeSectionEntry ⟨⟨[], 9⟩⟩)])
        ModuleEnvironment.new =
      .ok ModuleTranslationState.new
        { ModuleEnvironment.new with
            log := ModuleEnvironment.new.log ++
              [.defineFunctionBody ModuleTranslationState.new [] 9] } := by
  exact ⟨rfl, c9_empty_body_registered [.ok Payload.Version] 9 ModuleEnvironment.new
    ModuleTranslationState.new ModuleEnvironment.new rfl⟩

/-- C10: only type-section payloads mutate the Translation State: processing
a payload of any other kind returns the state unchanged (the code-section
branch passes it to the environment only as a read-only snapshot), and a
whole run over a stream without type sections returns its initial state. -/
theorem c10_state_frame :
    (∀ p st env st' env', p.isTypeSection = false →
      processPayload p st env = .ok st' env' → st' = st) ∧
    ∀ items st env st' env', (∀ it ∈ items, itemIsType it = false) →
      translateGo items st env = .ok st' env' → st' = st := by
  exact ⟨fun p st env st' env' hp h => processPayload_state_frame p st env hp st' env' h,
    fun items st env st' env' hitems h => translateGo_state_frame items st env hitems st' env' h⟩

/-- C10 (witness): a start-section payload leaves the state untouched, as
does a whole run over a stream consisting of it alone. -/
theorem c10_state_frame_witness :
    Payload.isTypeSection (.StartSection 0) = false ∧
    itemIsType (.ok (Payload.StartSection 0)) = false ∧
    processPayload (.StartSection 0) ModuleTranslationState.new ModuleEnvironment.new =
      .ok ModuleTranslationState.new (ModuleEnvironment.new.push (.declareStartFunction 0)) ∧
    (ModuleTranslationState.new = ModuleTranslationState.new ∧
      ModuleTranslationState.new = ModuleTranslationState.new) := by
  refine ⟨rfl, rfl, rfl, ?_, ?_⟩
  · exact c10_state_frame.1 (.StartSection 0) ModuleTranslationState.new ModuleEnvironment.new
      ModuleTranslationState.new (ModuleEnvironment.new.push (.declareStartFunction 0)) rfl rfl
  · exact c10_state_frame.2 [.ok (.StartSection 0)] ModuleTranslationState.new
      ModuleEnvironment.new ModuleTranslationState.new
      (ModuleEnvironment.new.push (.declareStartFunction 0)) (by decide) rfl
